import Mathlib

/-!
Shallow embedding of the ownership-partitioned parallel-write and
atomic-merge protocol (BAiSED factory core).

Conventions of the embedding:
* JavaScript strings are Lean `String`s; the character-sequence view used
  for prefix / containment tests is `String.data`.
* JavaScript string falsiness (`!s`, `s || d`) is modelled by testing
  against the empty string.
* `Map` / `Set` objects are association lists / duplicate-free lists that
  preserve insertion order, matching JS iteration order.
* Effectful git operations are modelled by explicit state passing over
  small state records capturing the version-control backend contract
  (status, resolve, branch create/remove, commit, apply, abort, head).
  Commit hashes are opaque `Nat` identifiers.
-/

/-- JS `s.includes(sub)` on character lists: `sub` occurs contiguously. -/
def charsContain (l sub : List Char) : Bool :=
  sub.isPrefixOf l ||
    match l with
    | [] => false
    | _ :: rest => charsContain rest sub

/-- JS `String.prototype.includes`. -/
def strContains (s sub : String) : Bool :=
  charsContain s.data sub.data

/-- JS `String.prototype.startsWith`. -/
def strStarts (s pre : String) : Bool :=
  pre.data.isPrefixOf s.data

/-! ### Glob matching (src/core/ownership.ts, `matchesGlob`)

The source compiles a glob into a JS regex: `**` becomes `.*`, `*` becomes
`[^/]*`, every other character is copied verbatim, and the regex is
anchored only at the start (`^pattern`, no `$`).  We tokenise the pattern
and give the direct matching semantics of the produced regex.  A verbatim
`.` is a regex wildcard for any non-line-terminator character; other
copied characters are modelled as literals (the repository's path patterns
contain no further regex metacharacters). -/

inductive GTok where
  | lit (c : Char)
  | star
  | dstar
deriving DecidableEq, Repr

/-- Tokenise a glob pattern: `**` first (as the source's global replace), then `*`. -/
def tokenize : List Char → List GTok
  | [] => []
  | '*' :: '*' :: rest => GTok.dstar :: tokenize rest
  | '*' :: rest => GTok.star :: tokenize rest
  | c :: rest => GTok.lit c :: tokenize rest

/-- Does a literal pattern character `c` match text character `x`?
`.` was copied into the regex unescaped, so it matches any
non-line-terminator character. -/
def litOk (c x : Char) : Bool :=
  if c = '.' then x ≠ '\n' && x ≠ '\r' else c = x

/-- Kleene-star loop: consume any run of characters satisfying `cond`,
then match `rest` on what remains. -/
def starLoop (cond : Char → Bool) (rest : List Char → Bool) : List Char → Bool
  | [] => rest []
  | x :: xs' => rest (x :: xs') || (cond x && starLoop cond rest xs')

/-- Matching of the compiled regex against the text, anchored at the start
only (the source regex has `^` but no `$`, so trailing text is allowed). -/
def globMatch : List GTok → List Char → Bool
  | [], _ => true
  | GTok.lit _ :: _, [] => false
  | GTok.lit c :: ts, x :: xs => litOk c x && globMatch ts xs
  | GTok.star :: ts, xs => starLoop (fun x => x ≠ '/') (globMatch ts) xs
  | GTok.dstar :: ts, xs => starLoop (fun x => x ≠ '\n' && x ≠ '\r') (globMatch ts) xs

/-- `matchesGlob(file, pattern)` from src/core/ownership.ts. -/
def matchesGlob (file pattern : String) : Bool :=
  globMatch (tokenize pattern.data) file.data

/-- `matchesAny(file, patterns)` from src/core/ownership.ts. -/
def matchesAny (file : String) (patterns : List String) : Bool :=
  patterns.any fun pattern => matchesGlob file pattern

/-! ### Ownership map (src/core/ownership.ts) -/

structure OwnershipConfig where
  strict : Bool
  generatedPaths : List String
  allowSharedPaths : List String
  restrictedPaths : List String
  owners : List (String × List String)
  lockfileOwner : Option String
deriving Repr

structure PlannedChange where
  agent : String
  files : List String
deriving Repr, DecidableEq

structure OwnershipCheckResult where
  ok : Bool
  errors : List String
  warnings : List String
  conflicts : List String
  violations : List String
deriving Repr

/-- Association-list lookup, the JS `Map.get`. -/
def lookupA {β : Type} : List (String × β) → String → Option β
  | [], _ => none
  | (k, v) :: rest, key => if k = key then some v else lookupA rest key

/-- `getOwners(file, config)`: every agent one of whose patterns matches. -/
def getOwners (file : String) (cfg : OwnershipConfig) : List String :=
  (cfg.owners.filter fun e => matchesAny file e.2).map fun e => e.1

/-- JS `Set.add`: append iff not already present (keeps insertion order). -/
def setAdd (l : List String) (a : String) : List String :=
  if a ∈ l then l else l ++ [a]

/-- Insert one claim `(file ↦ agent)` into the reverse map; an existing key
keeps its position (JS `Map.set` on a present key), a new key is appended. -/
def assocAdd (m : List (String × List String)) (f a : String) :
    List (String × List String) :=
  match m with
  | [] => [(f, [a])]
  | (g, ags) :: rest =>
      if g = f then (g, setAdd ags a) :: rest else (g, ags) :: assocAdd rest f a

/-- The `(agent, file)` claim pairs of a plan in loop traversal order. -/
def claimPairs (plan : List PlannedChange) : List (String × String) :=
  (plan.map fun p => p.files.map fun f => (p.agent, f)).flatten

/-- One step of building the `touched` reverse map: skip generated paths. -/
def touchedStep (cfg : OwnershipConfig) (m : List (String × List String))
    (af : String × String) : List (String × List String) :=
  if matchesAny af.2 cfg.generatedPaths then m else assocAdd m af.2 af.1

/-- The `touched` map (`file -> agents`) built by `checkOwnership`'s first loop. -/
def buildTouched (plan : List PlannedChange) (cfg : OwnershipConfig) :
    List (String × List String) :=
  (claimPairs plan).foldl (touchedStep cfg) []

/-- Lockfile naming test of `checkOwnership`: substring containment. -/
def isLockfileName (file : String) : Bool :=
  strContains file "lock" || strContains file "pnpm" || strContains file "yarn"

/-- JS truthiness of the optional `lockfileOwner` field. -/
def activeLockOwner (o : Option String) : Option String :=
  match o with
  | some s => if s = "" then none else some s
  | none => none

/-- Findings for one file of the `touched` map, in source order. -/
structure FileFindings where
  errors : List String
  conflicts : List String
  violations : List String
deriving Repr

/-- The per-file body of `checkOwnership`'s second loop. -/
def fileFindings (cfg : OwnershipConfig) (file : String) (agents : List String) :
    FileFindings :=
  if matchesAny file cfg.allowSharedPaths then ⟨[], [], []⟩ else
  let conflictC :=
    if agents.length > 1 then
      [file ++ " touched by multiple agents: " ++ String.intercalate ", " agents]
    else []
  let conflictE :=
    if agents.length > 1 && cfg.strict then
      ["CONFLICT: " ++ file ++ " cannot be modified by multiple agents in parallel mode"]
    else []
  let restrictedHit := matchesAny file cfg.restrictedPaths
  let restrictedV :=
    if restrictedHit then
      [file ++ " is RESTRICTED - " ++ agents.headD "" ++
        " cannot modify directly (PM-only)"]
    else []
  let restrictedE :=
    if restrictedHit && cfg.strict then
      ["RESTRICTED: " ++ file ++ " requires PM approval"]
    else []
  let fileOwners := getOwners file cfg
  let offendersO :=
    agents.filter fun a => !fileOwners.isEmpty && !fileOwners.contains a
  let ownersV := offendersO.map fun a =>
    file ++ " owned by " ++ String.intercalate " or " fileOwners ++
      " but touched by " ++ a
  let ownersE :=
    if cfg.strict then
      offendersO.map fun a =>
        "OWNERSHIP: " ++ a ++ " cannot modify " ++ file ++ " (owned by " ++
          String.intercalate " or " fileOwners ++ ")"
    else []
  let lockPart :=
    match activeLockOwner cfg.lockfileOwner with
    | none => (⟨[], []⟩ : List String × List String)
    | some ow =>
        if isLockfileName file then
          let offendersL := agents.filter fun a => a ≠ ow
          (if cfg.strict then
             offendersL.map fun a =>
               "LOCKFILE: " ++ a ++ " cannot modify " ++ file ++
                 " (owned by " ++ ow ++ ")"
           else [],
           offendersL.map fun _ => file ++ " is lockfile, only " ++ ow ++ " should modify")
        else (⟨[], []⟩ : List String × List String)
  { errors := conflictE ++ restrictedE ++ ownersE ++ lockPart.1
    conflicts := conflictC
    violations := restrictedV ++ ownersV ++ lockPart.2 }

/-- `checkOwnership(plan, config)` from src/core/ownership.ts. -/
def checkOwnership (plan : List PlannedChange) (cfg : OwnershipConfig) :
    OwnershipCheckResult :=
  let touched := buildTouched plan cfg
  let per := touched.map fun e => fileFindings cfg e.1 e.2
  let errors := (per.map fun r => r.errors).flatten
  { ok := errors.length == 0
    errors := errors
    warnings := []
    conflicts := (per.map fun r => r.conflicts).flatten
    violations := (per.map fun r => r.violations).flatten }

example :
    (checkOwnership
      [⟨"Frontend", ["apps/web/login.tsx"]⟩, ⟨"Backend", ["apps/api/auth.ts"]⟩]
      ⟨true, [], [], [], [("Frontend", ["apps/web/"]), ("Backend", ["apps/api/"])], none⟩).ok
      = true := by decide

/-! ### Artifact manifest (src/manifest.ts)

Risk flags and test statuses are modelled as runtime strings, as in the
executed JavaScript (the TypeScript unions are erased).  The optional
`noOp` field is modelled as a `Bool`, since only its truthiness is ever
read.  `gates` is carried as an inert association list; `validateManifest`
never inspects it. -/

structure ArtifactManifest where
  agent : String
  worktree : String
  baseRef : String
  headCommit : String
  noOp : Bool
  summary : String
  filesChanged : List String
  commandsRun : List String
  gates : List (String × String)
  testStatus : String
  notes : List String
  riskFlags : List String
  timestamp : Nat
deriving Repr

structure ManifestValidation where
  valid : Bool
  errors : List String
  warnings : List String
deriving Repr

def validStatuses : List String := ["pass", "fail", "skipped"]

def validRiskFlags : List String :=
  ["touches-auth", "db-migration", "breaking-change", "security-sensitive",
   "performance-critical"]

/-- `validateManifest(manifest)` from src/manifest.ts, on typed manifests
(the `Array.isArray(filesChanged)` check always passes for a typed value
and is omitted).  Error and warning lists are in push order. -/
def validateManifest (m : ArtifactManifest) : ManifestValidation :=
  let errors :=
    (if m.agent = "" then ["Missing required field: agent"] else []) ++
    (if m.worktree = "" then ["Missing required field: worktree"] else []) ++
    (if m.summary = "" then ["Missing required field: summary"] else []) ++
    (if m.headCommit = "" then
      ["Missing required field: headCommit (agent must commit)"] else []) ++
    (if validStatuses.contains m.testStatus then []
     else ["testStatus must be one of: " ++ String.intercalate ", " validStatuses]) ++
    (if m.riskFlags.contains "db-migration" && m.testStatus == "fail" then
      ["BLOCKING: Database migration with failing tests"] else [])
  let warnings :=
    ((m.riskFlags.filter fun flag => !validRiskFlags.contains flag).map
      fun flag => "Unknown risk flag: " ++ flag) ++
    (if m.riskFlags.contains "touches-auth" && m.riskFlags.contains "breaking-change" then
      ["CRITICAL: Authentication + breaking change requires security review"] else [])
  { valid := errors.length == 0, errors := errors, warnings := warnings }

/-- `(agent, file)` pairs traversed by `detectConflicts`, skipping `noOp`
manifests. -/
def manifestPairs (ms : List ArtifactManifest) : List (String × String) :=
  ((ms.filter fun m => !m.noOp).map fun m =>
    m.filesChanged.map fun f => (m.agent, f)).flatten

/-- One step of `detectConflicts`: an already-seen file yields a conflict
message against the first claimant; a fresh file is recorded. -/
def dcStep (acc : List String × List (String × String)) (p : String × String) :
    List String × List (String × String) :=
  match lookupA acc.2 p.2 with
  | some other =>
      (acc.1 ++ ["CONFLICT: " ++ p.2 ++ " touched by both " ++ p.1 ++ " and " ++ other],
       acc.2)
  | none => (acc.1, acc.2 ++ [(p.2, p.1)])

/-- `detectConflicts(manifests)` from src/manifest.ts. -/
def detectConflicts (ms : List ArtifactManifest) : List String :=
  ((manifestPairs ms).foldl dcStep ([], [])).1

/-- The fields of the `Partial<ArtifactManifest>` options bag read by
`createManifest`. -/
structure CMOptions where
  baseRef : Option String
  headCommit : Option String
  noOp : Option Bool
  commandsRun : Option (List String)
  gates : Option (List (String × String))
  testStatus : Option String
  notes : Option (List String)
  riskFlags : Option (List String)
deriving Repr

/-- JS `o || d` on an optional string: empty strings are falsy. -/
def jsOrStr (o : Option String) (d : String) : String :=
  match o with
  | some s => if s = "" then d else s
  | none => d

/-- JS `o || d` on an optional array (arrays are always truthy). -/
def jsOrList {α : Type} (o : Option (List α)) (d : List α) : List α :=
  match o with
  | some l => l
  | none => d

/-- JS `!options.headCommit`: absent or empty. -/
def noHeadCommit (o : Option String) : Bool :=
  match o with
  | some s => s == ""
  | none => true

/-- `createManifest(agent, worktree, summary, filesChanged, options)`;
`Date.now()` is passed in as `now`. -/
def createManifest (agent worktree summary : String) (filesChanged : List String)
    (options : CMOptions) (now : Nat) : ArtifactManifest :=
  { agent := agent
    worktree := worktree
    baseRef := jsOrStr options.baseRef "main"
    headCommit := jsOrStr options.headCommit "UNKNOWN"
    noOp := options.noOp == some true ||
      (filesChanged.isEmpty && noHeadCommit options.headCommit)
    summary := summary
    filesChanged := filesChanged
    commandsRun := jsOrList options.commandsRun []
    gates := jsOrList options.gates []
    testStatus := jsOrStr options.testStatus "skipped"
    notes := jsOrList options.notes []
    riskFlags := jsOrList options.riskFlags []
    timestamp := now }

/-! ### Review gate (`ProjectManager.review`) -/

structure RiskAssessment where
  level : String
  concerns : List String
deriving Repr

structure ReviewResult where
  approved : Bool
  conflicts : List String
  errors : List String
  warnings : List String
  riskAssessment : RiskAssessment
deriving Repr

/-- `ProjectManager.review(manifests)`; the class field `strictMode` is an
explicit argument. -/
def review (strictMode : Bool) (manifests : List ArtifactManifest) : ReviewResult :=
  let errs0 :=
    (manifests.map fun m =>
      let v := validateManifest m
      if v.valid then [] else v.errors.map fun e => m.agent ++ ": " ++ e).flatten
  let warns :=
    (manifests.map fun m =>
      (validateManifest m).warnings.map fun w => m.agent ++ ": " ++ w).flatten
  let conflicts := detectConflicts manifests
  let errs1 := errs0 ++ conflicts
  let concerns1 :=
    if conflicts.length > 0 then
      [toString conflicts.length ++ " file conflicts detected"]
    else []
  let failedTests := manifests.filter fun m => m.testStatus == "fail"
  let errs2 := errs1 ++ failedTests.map fun m => m.agent ++ ": Tests failed"
  let concerns2 := concerns1 ++
    (if failedTests.length > 0 then ["Test failures in one or more worktrees"] else [])
  let riskFlags := (manifests.map fun m => m.riskFlags).flatten
  let risk : RiskAssessment :=
    if riskFlags.contains "breaking-change" then
      ⟨"critical", concerns2 ++ ["Breaking changes require major version bump"]⟩
    else if riskFlags.contains "db-migration" then
      ⟨"high", concerns2 ++ ["Database migrations require rollback testing"]⟩
    else if riskFlags.contains "touches-auth" || riskFlags.contains "security" then
      ⟨"high", concerns2 ++ ["Security-related changes require audit"]⟩
    else if riskFlags.length > 0 then ⟨"medium", concerns2⟩
    else ⟨"low", concerns2⟩
  let approved :=
    if strictMode then errs2.length == 0
    else ((errs2.filter fun e => !strStarts e "CONFLICT:").length == 0)
  { approved := approved
    conflicts := conflicts
    errors := errs2
    warnings := warns
    riskAssessment := risk }

/-! ### Atomic merge (`mergeCommitsAtomic`)

The repository state is the branch map of the shared tree; a branch's
history is the list of commit identifiers, most recent first.  Whether a
cherry-pick of a given commit applies cleanly onto a given history is the
version-control backend's business (out of scope in the spec), so it is an
oracle parameter `applyOk`; `git cherry-pick --abort` restores the
pre-pick state, so a failed pick leaves the history unchanged.  A
successful pick followed by `git commit` appends one fresh commit. -/

structure MergeCommit where
  agent : String
  commitHash : Nat
  branch : String
deriving Repr

structure RepoSt where
  branches : List (String × List Nat)
  nextId : Nat
deriving Repr

structure MergeOutcome where
  success : Bool
  finalCommit : Option Nat
  error : Option String
deriving Repr

/-- The fixed department precedence of `mergeCommitsAtomic` (`|| 2` default). -/
def mergePriority (agent : String) : Nat :=
  (lookupA
    [("Backend", 1), ("API", 1), ("Database", 1),
     ("Frontend", 2), ("UI", 2), ("UX", 2), ("Mobile", 2),
     ("QA", 3), ("Test", 3), ("E2E", 3),
     ("Docs", 4), ("Documentation", 4)] agent).getD 2

/-- Stable insertion into a sorted list: the new element, which originally
preceded every element of the list, goes before the first element it
compares `le` to (ties keep original order, as JS `Array.prototype.sort`
is stable). -/
def stableInsert {α : Type} (le : α → α → Bool) (x : α) : List α → List α
  | [] => [x]
  | y :: ys => if le x y then x :: y :: ys else y :: stableInsert le x ys

/-- Stable sort (insertion sort), modelling JS `Array.prototype.sort` with
a numeric comparator. -/
def stableSort {α : Type} (le : α → α → Bool) : List α → List α
  | [] => []
  | x :: xs => stableInsert le x (stableSort le xs)

/-- Order the commits: an explicit `mergeOrder` selects by agent name;
otherwise a stable sort by `mergePriority`. -/
def orderCommits (commits : List MergeCommit) (mergeOrder : Option (List String)) :
    List MergeCommit :=
  match mergeOrder with
  | some ord => ord.filterMap fun a => commits.find? fun c => c.agent == a
  | none => stableSort (fun a b => mergePriority a.agent ≤ mergePriority b.agent) commits

/-- The sequential cherry-pick loop of `mergeCommitsAtomic`.  On a failed
pick the in-progress pick is aborted and the loop returns with the history
as already advanced by the earlier picks. -/
def mergeLoop (applyOk : Nat → List Nat → Bool) :
    List MergeCommit → List Nat → Nat → MergeOutcome × List Nat × Nat
  | [], hist, nid => (⟨true, hist.head?, none⟩, hist, nid)
  | c :: rest, hist, nid =>
      if applyOk c.commitHash hist then
        mergeLoop applyOk rest (nid :: hist) (nid + 1)
      else
        (⟨false, none,
           some ("Merge conflict in " ++ c.agent ++ ". Atomic merge aborted.")⟩,
         hist, nid)

/-- Write a branch's history back into the branch map. -/
def setBranch (branches : List (String × List Nat)) (name : String)
    (hist : List Nat) : List (String × List Nat) :=
  branches.map fun e => if e.1 = name then (e.1, hist) else e

/-- `mergeCommitsAtomic(repoPath, commits, target, mergeOrder)`.  A failing
`git checkout target` throws into the outer catch, whose
`git reset --hard target` also fails; the state is unchanged. -/
def mergeCommitsAtomic (applyOk : Nat → List Nat → Bool) (st : RepoSt)
    (commits : List MergeCommit) (target : String)
    (mergeOrder : Option (List String)) : MergeOutcome × RepoSt :=
  let ordered := orderCommits commits mergeOrder
  match lookupA st.branches target with
  | none => (⟨false, none, some "Atomic merge failed: checkout"⟩, st)
  | some h0 =>
      let (out, hist, nid) := mergeLoop applyOk ordered h0 st.nextId
      (out, ⟨setBranch st.branches target hist, nid⟩)

/-- Head revision of a branch. -/
def headOfBranch (st : RepoSt) (name : String) : Option Nat :=
  (lookupA st.branches name).bind List.head?

/-! ### Commit contract (`verifyCommitContract` / `enforceCommit`)

A workspace state: `statusLines` is the `git status --porcelain` output
(clean iff empty), `head` the current revision, `commits` the revisions
`git cat-file` recognises, `refs` the resolvable references, and `nextId`
a fresh identifier for the next created commit. -/

structure WsState where
  statusLines : List String
  head : Nat
  commits : List Nat
  refs : List (String × Nat)
  nextId : Nat
deriving Repr

structure CommitValidation where
  valid : Bool
  errors : List String
  headCommit : Option Nat
deriving Repr

structure EnforceResult where
  success : Bool
  commitHash : Option Nat
  error : Option String
deriving Repr

/-- `verifyCommitContract(worktreePath, agent, expectedBaseRef)`.  An
unresolvable `expectedBaseRef` makes `git rev-parse` throw into the
function's catch-all, discarding any earlier findings. -/
def verifyCommitContract (st : WsState) (baseRef : String) : CommitValidation :=
  match lookupA st.refs baseRef with
  | none =>
      ⟨false, ["Failed to verify commit contract: rev-parse " ++ baseRef], none⟩
  | some base =>
      let errors :=
        (if st.statusLines.isEmpty then []
         else ["Worktree is dirty:\n" ++ String.intercalate "\n" st.statusLines]) ++
        (if st.head == base then
          ["Agent made no commits (HEAD == " ++ baseRef ++ ")"] else []) ++
        (if st.commits.contains st.head then []
         else ["Invalid commit: " ++ toString st.head])
      ⟨errors.length == 0, errors,
       if errors.length == 0 then some st.head else none⟩

/-- `enforceCommit(worktreePath, agent, message?)`: a clean workspace
returns the existing head unchanged; a dirty one stages everything and
creates one fresh commit. -/
def enforceCommit (st : WsState) : EnforceResult × WsState :=
  if st.statusLines.isEmpty then (⟨true, some st.head, none⟩, st)
  else
    (⟨true, some st.nextId, none⟩,
     { statusLines := []
       head := st.nextId
       commits := st.nextId :: st.commits
       refs := st.refs
       nextId := st.nextId + 1 })

/-! ### Worktree manager (`WorktreeManager.spawn` / `cleanup`)

`GitEnv` is the on-disk reality: existing paths, existing branches, the
git worktree registrations `(path, branch)`, and the resolvable base
references.  The manager's in-memory registry is a separate association
list — the point of claim C9 is precisely that the two can disagree. -/

structure Worktree where
  path : String
  branch : String
  baseRef : String
  createdAt : Nat
deriving Repr

structure GitEnv where
  disk : List String
  branches : List String
  wtrees : List (String × String)
  refs : List String
deriving Repr

/-- JS `Map.set`: overwrite in place or append. -/
def assocSet {β : Type} (m : List (String × β)) (k : String) (v : β) :
    List (String × β) :=
  match m with
  | [] => [(k, v)]
  | (k', v') :: rest =>
      if k' = k then (k', v) :: rest else (k', v') :: assocSet rest k v

/-- `WorktreeManager.cleanup(branchName)`: a name absent from the
in-memory registry returns immediately; otherwise `git worktree remove`
and `git branch -D` run inside a try/catch, and the registry entry is
deleted only after both succeed. -/
def wtCleanup (env : GitEnv) (reg : List (String × Worktree)) (name : String) :
    GitEnv × List (String × Worktree) :=
  match lookupA reg name with
  | none => (env, reg)
  | some wt =>
      if env.wtrees.any fun e => e.1 == wt.path then
        let env1 : GitEnv :=
          { env with
            disk := env.disk.filter fun p => p ≠ wt.path
            wtrees := env.wtrees.filter fun e => e.1 ≠ wt.path }
        if env1.branches.contains name &&
            !(env1.wtrees.any fun e => e.2 == name) then
          ({ env1 with branches := env1.branches.filter fun b => b ≠ name },
           reg.filter fun e => e.1 ≠ name)
        else (env1, reg)
      else (env, reg)

/-- `git worktree add -b name path baseRef` succeeds iff the branch is
fresh, the path is free, and the base resolves. -/
def wtAddNewOk (env : GitEnv) (name path baseRef : String) : Bool :=
  !env.branches.contains name && !env.disk.contains path && env.refs.contains baseRef

/-- The fallback `git worktree add path name` (no `-b`) succeeds iff the
path is free and the branch exists and is not checked out elsewhere. -/
def wtAddExistingOk (env : GitEnv) (name path : String) : Bool :=
  !env.disk.contains path && env.branches.contains name &&
    !(env.wtrees.any fun e => e.2 == name)

/-- `WorktreeManager.spawn(branchName, baseRef)`.  If the worktree path
exists on disk, `cleanup` runs first; then `git worktree add -b`, with the
no-`-b` form as the catch fallback; a second failure propagates as a
thrown error.  On success the worktree is stored in the registry. -/
def wtSpawn (env : GitEnv) (reg : List (String × Worktree))
    (name baseRef baseDir : String) (now : Nat) :
    Except String (Worktree × GitEnv × List (String × Worktree)) :=
  let path := baseDir ++ "/" ++ name
  let cleaned := if env.disk.contains path then wtCleanup env reg name else (env, reg)
  let env1 := cleaned.1
  let reg1 := cleaned.2
  let envAfterAdd : Option GitEnv :=
    if wtAddNewOk env1 name path baseRef then
      some { env1 with
             disk := env1.disk ++ [path]
             branches := env1.branches ++ [name]
             wtrees := env1.wtrees ++ [(path, name)] }
    else if wtAddExistingOk env1 name path then
      some { env1 with
             disk := env1.disk ++ [path]
             wtrees := env1.wtrees ++ [(path, name)] }
    else none
  match envAfterAdd with
  | none => Except.error ("worktree add failed for " ++ name)
  | some env2 =>
      let wt : Worktree := ⟨path, name, baseRef, now⟩
      Except.ok (wt, env2, assocSet reg1 name wt)

/-! ### Analysis helpers and concrete inputs -/

/-- Agents recorded for a file in the reverse map (empty when absent). -/
def valsA (m : List (String × List String)) (k : String) : List String :=
  (lookupA m k).getD []

/-- Invariant of the `touched` map: every entry has a non-empty,
duplicate-free agent set, all of whose members actually claim the file in
the claim-pair list `L`. -/
def GoodEntry (L : List (String × String)) (e : String × List String) : Prop :=
  e.2 ≠ [] ∧ e.2.Nodup ∧ ∀ a ∈ e.2, (a, e.1) ∈ L

/-- First-occurrence deduplication step. -/
def insFD (acc : List String) (f : String) : List String :=
  if f ∈ acc then acc else acc ++ [f]

/-- Deduplicate a list keeping first occurrences; its length is the number
of distinct elements. -/
def firstDedup (l : List String) : List String :=
  l.foldl insFD []

/-- A manifest declaring only the `security-sensitive` risk flag. -/
def mSec : ArtifactManifest :=
  { agent := "Backend", worktree := "wt-backend", baseRef := "main",
    headCommit := "abc123", noOp := false, summary := "auth work",
    filesChanged := ["apps/api/auth.ts"], commandsRun := [], gates := [],
    testStatus := "pass", notes := [], riskFlags := ["security-sensitive"],
    timestamp := 0 }

/-- A manifest whose agent is literally named `CONFLICT` and whose summary
is missing (a manifest-validation error, not a conflict). -/
def mConf : ArtifactManifest :=
  { agent := "CONFLICT", worktree := "wt-x", baseRef := "main",
    headCommit := "abc123", noOp := false, summary := "",
    filesChanged := [], commandsRun := [], gates := [],
    testStatus := "pass", notes := [], riskFlags := [], timestamp := 0 }

/-- Three valid manifests from agents A, B, C all claiming `a.ts`. -/
def mA : ArtifactManifest :=
  { agent := "A", worktree := "wa", baseRef := "main", headCommit := "ha",
    noOp := false, summary := "sa", filesChanged := ["a.ts"], commandsRun := [],
    gates := [], testStatus := "pass", notes := [], riskFlags := [], timestamp := 0 }

def mB : ArtifactManifest := { mA with agent := "B", worktree := "wb", headCommit := "hb" }

def mC : ArtifactManifest := { mA with agent := "C", worktree := "wc", headCommit := "hc" }

/-- Config whose owners map gives `apps/api/` to Backend only; nothing
restricted, nothing shared, no lockfile owner. -/
def cfgC4 : OwnershipConfig := ⟨true, [], [], [], [("Backend", ["apps/api/"])], none⟩

/-- Frontend alone claims a Backend-owned path. -/
def planC4 : List PlannedChange := [⟨"Frontend", ["apps/api/x.ts"]⟩]

/-- Config with `docs/` shared and Backend as lockfile owner. -/
def cfgC5 : OwnershipConfig := ⟨true, [], ["docs/"], [], [], some "Backend"⟩

/-- Frontend claims a shared-path file whose name contains `yarn`. -/
def planC5 : List PlannedChange := [⟨"Frontend", ["docs/yarn-notes.md"]⟩]

/-- Minimal config with Backend as lockfile owner. -/
def cfgC5b : OwnershipConfig := ⟨true, [], [], [], [], some "Backend"⟩

/-- Frontend claims `pnpm-lock.yaml`. -/
def planC5b : List PlannedChange := [⟨"Frontend", ["pnpm-lock.yaml"]⟩]

/-- Two-agent disjoint plan over an owners map that covers both paths. -/
def cfgC4w : OwnershipConfig :=
  ⟨true, [], [], [], [("Frontend", ["apps/web/"]), ("Backend", ["apps/api/"])], none⟩

def planC4w : List PlannedChange :=
  [⟨"Frontend", ["apps/web/login.tsx"]⟩, ⟨"Backend", ["apps/api/auth.ts"]⟩]

/-- Oracle under which commit 10 applies cleanly and commit 11 collides. -/
def c1applyOk : Nat → List Nat → Bool := fun c _ => c == 10

/-- Oracle under which every commit applies cleanly. -/
def c1applyAll : Nat → List Nat → Bool := fun _ _ => true

/-- Shared tree whose `main` is at commit 0. -/
def c1st : RepoSt := ⟨[("main", [0])], 1⟩

/-- Accepted commits from Backend (10) and Frontend (11). -/
def c1commits : List MergeCommit := [⟨"Backend", 10, "wt-b"⟩, ⟨"Frontend", 11, "wt-f"⟩]

/-- A dirty workspace: one modified file, head 0 equal to `main`. -/
def ws7 : WsState := ⟨["M a.ts"], 0, [0], [("main", 0)], 1⟩

/-- Stale on-disk worktree and branch from a previous run. -/
def env9 : GitEnv := ⟨["/tmp/wts/feat"], ["feat"], [("/tmp/wts/feat", "feat")], ["main"]⟩

/-- Options bag supplying only a head commit. -/
def c8opts (hc : String) : CMOptions :=
  ⟨none, some hc, none, none, none, none, none, none⟩

/-- Fully empty options bag. -/
def cmNone : CMOptions := ⟨none, none, none, none, none, none, none, none⟩

/-- The missing-headCommit validation error text. -/
def msgMissingHead : String := "Missing required field: headCommit (agent must commit)"

/-! ### Association-list and `touched`-map lemmas -/

theorem lookupA_mem {β : Type} {m : List (String × β)} {k : String} {v : β}
    (h : lookupA m k = some v) : (k, v) ∈ m := by
  induction m with
  | nil => simp [lookupA] at h
  | cons e rest ih =>
      obtain ⟨k', v'⟩ := e
      by_cases hk : k' = k
      · subst hk
        simp [lookupA] at h
        simp [h]
      · simp [lookupA, hk] at h
        exact List.mem_cons_of_mem _ (ih h)

theorem lookupA_eq_none_iff {β : Type} {m : List (String × β)} {k : String} :
    lookupA m k = none ↔ k ∉ m.map Prod.fst := by
  induction m with
  | nil => simp [lookupA]
  | cons e rest ih =>
      obtain ⟨k', v'⟩ := e
      by_cases hk : k' = k
      · subst hk; simp [lookupA]
      · simp [lookupA, hk, ih, Ne.symm hk]

theorem mem_valsA_assocAdd_self (m : List (String × List String)) (f a : String) :
    a ∈ valsA (assocAdd m f a) f := by
  induction m with
  | nil => simp [assocAdd, valsA, lookupA]
  | cons e rest ih =>
      obtain ⟨g, ags⟩ := e
      by_cases hg : g = f
      · subst hg
        simp [assocAdd, valsA, lookupA, setAdd]
        by_cases ha : a ∈ ags <;> simp [ha]
      · simpa [assocAdd, hg, valsA, lookupA] using ih

theorem mem_valsA_assocAdd_mono {m : List (String × List String)} {g : String}
    {b : String} (f a : String) (h : b ∈ valsA m g) :
    b ∈ valsA (assocAdd m f a) g := by
  induction m with
  | nil => simp [valsA, lookupA] at h
  | cons e rest ih =>
      obtain ⟨k, ags⟩ := e
      by_cases hk : k = f
      · subst hk
        by_cases hg : k = g
        · subst hg
          simp [valsA, lookupA] at h
          simp [assocAdd, valsA, lookupA, setAdd]
          by_cases hb : a ∈ ags <;> simp [hb, h, List.mem_append]
        · simp [valsA, lookupA, hg] at h
          simpa [assocAdd, valsA, lookupA, hg] using h
      · by_cases hg : k = g
        · subst hg
          simp [valsA, lookupA] at h
          simp [assocAdd, hk, valsA, lookupA, h]
        · simp [valsA, lookupA, hg] at h
          simpa [assocAdd, hk, valsA, lookupA, hg] using ih h

theorem mem_valsA_touchedStep_mono (cfg : OwnershipConfig)
    {m : List (String × List String)} {g b : String} (x : String × String)
    (h : b ∈ valsA m g) : b ∈ valsA (touchedStep cfg m x) g := by
  unfold touchedStep
  by_cases hx : matchesAny x.2 cfg.generatedPaths
  · simpa [hx] using h
  · simpa [hx] using mem_valsA_assocAdd_mono x.2 x.1 h

theorem mem_valsA_foldl_mono (cfg : OwnershipConfig)
    (ps : List (String × String)) {m : List (String × List String)}
    {g b : String} (h : b ∈ valsA m g) :
    b ∈ valsA (ps.foldl (touchedStep cfg) m) g := by
  induction ps generalizing m with
  | nil => simpa using h
  | cons x xs ih => exact ih (mem_valsA_touchedStep_mono cfg x h)

theorem mem_valsA_foldl_claim (cfg : OwnershipConfig) {ps : List (String × String)}
    {a f : String} (hmem : (a, f) ∈ ps)
    (hgen : matchesAny f cfg.generatedPaths = false)
    (m : List (String × List String)) :
    a ∈ valsA (ps.foldl (touchedStep cfg) m) f := by
  induction ps generalizing m with
  | nil => simp at hmem
  | cons x xs ih =>
      rcases List.mem_cons.mp hmem with hx | hx
      · subst hx
        refine mem_valsA_foldl_mono cfg xs ?_
        simpa [touchedStep, hgen] using mem_valsA_assocAdd_self m f a
      · exact ih hx _

theorem goodEntry_assocAdd {L : List (String × String)}
    {m : List (String × List String)} {f a : String}
    (hm : ∀ e ∈ m, GoodEntry L e) (ha : (a, f) ∈ L) :
    ∀ e ∈ assocAdd m f a, GoodEntry L e := by
  induction m with
  | nil =>
      intro e he
      simp [assocAdd] at he
      subst he
      exact ⟨by simp, List.nodup_singleton a, by simpa using ha⟩
  | cons hd tl ih =>
      obtain ⟨g, ags⟩ := hd
      intro e he
      by_cases hg : g = f
      · subst hg
        simp [assocAdd] at he
        rcases he with he | he
        · subst he
          obtain ⟨hne, hnd, hcl⟩ := hm (g, ags) (List.mem_cons_self _ _)
          refine ⟨?_, ?_, ?_⟩
          · unfold setAdd
            by_cases hmem : a ∈ ags <;> simp [hmem, hne]
          · unfold setAdd
            by_cases hmem : a ∈ ags
            · simpa [hmem] using hnd
            · simp [hmem, List.nodup_append, hnd, List.Disjoint]
              intro x hx hxa
              exact hmem (hxa ▸ hx)
          · intro b hb
            unfold setAdd at hb
            by_cases hmem : a ∈ ags
            · exact hcl b (by simpa [hmem] using hb)
            · rcases (by simpa [hmem] using hb : b ∈ ags ∨ b = a) with hb' | hb'
              · exact hcl b hb'
              · subst hb'
                exact ha
        · exact hm e (List.mem_cons_of_mem _ he)
      · simp [assocAdd, hg] at he
        rcases he with he | he
        · subst he
          exact hm (g, ags) (List.mem_cons_self _ _)
        · exact ih (fun e' he' => hm e' (List.mem_cons_of_mem _ he')) e he

theorem goodEntry_foldl {L : List (String × String)} (cfg : OwnershipConfig)
    {ps : List (String × String)} (hps : ∀ x ∈ ps, x ∈ L)
    {m : List (String × List String)} (hm : ∀ e ∈ m, GoodEntry L e) :
    ∀ e ∈ ps.foldl (touchedStep cfg) m, GoodEntry L e := by
  induction ps generalizing m with
  | nil => simpa using hm
  | cons x xs ih =>
      intro e he
      refine ih (fun y hy => hps y (List.mem_cons_of_mem _ hy)) ?_ e he
      intro e' he'
      unfold touchedStep at he'
      by_cases hx : matchesAny x.2 cfg.generatedPaths
      · exact hm e' (by simpa [hx] using he')
      · exact goodEntry_assocAdd hm
          (by simpa using hps x (List.mem_cons_self _ _)) e'
          (by simpa [hx] using he')

theorem buildTouched_good (plan : List PlannedChange) (cfg : OwnershipConfig) :
    ∀ e ∈ buildTouched plan cfg, GoodEntry (claimPairs plan) e :=
  goodEntry_foldl cfg (fun _ hx => hx) (by simp)

theorem claimPairs_mem {plan : List PlannedChange} {a f : String} :
    (a, f) ∈ claimPairs plan ↔ ∃ p, p ∈ plan ∧ p.agent = a ∧ f ∈ p.files := by
  simp only [claimPairs, List.mem_flatten, List.mem_map]
  constructor
  · rintro ⟨l, ⟨p, hp, rfl⟩, hl⟩
    obtain ⟨g, hg, hfg⟩ := List.mem_map.mp hl
    obtain ⟨h1, h2⟩ := Prod.mk.injEq .. ▸ hfg
    exact ⟨p, hp, h1, h2 ▸ hg⟩
  · rintro ⟨p, hp, rfl, hf⟩
    exact ⟨_, ⟨p, hp, rfl⟩, List.mem_map.mpr ⟨f, hf, rfl⟩⟩

theorem length_le_one_of_allEq {l : List String} (hnd : l.Nodup)
    (hall : ∀ a ∈ l, ∀ b ∈ l, a = b) : l.length ≤ 1 := by
  match l with
  | [] => simp
  | [a] => simp
  | a :: b :: t =>
      exfalso
      have hab : a = b := hall a (by simp) b (by simp)
      have := List.nodup_cons.mp hnd
      exact this.1 (hab ▸ List.mem_cons_self b t)

theorem fileFindings_eq_nil (cfg : OwnershipConfig) (f : String) (ags : List String)
    (hlen : ags.length ≤ 1)
    (hres : matchesAny f cfg.restrictedPaths = false)
    (hown : ∀ a ∈ ags, getOwners f cfg = [] ∨ a ∈ getOwners f cfg)
    (hlock : ∀ a ∈ ags, ∀ ow, activeLockOwner cfg.lockfileOwner = some ow →
      isLockfileName f = true → a = ow) :
    fileFindings cfg f ags = ⟨[], [], []⟩ := by
  by_cases hsh : matchesAny f cfg.allowSharedPaths
  · simp [fileFindings, hsh]
  · have hlt : ¬(1 < ags.length) := by omega
    have hown' : ∀ a ∈ ags, ¬getOwners f cfg = [] → a ∈ getOwners f cfg :=
      fun a ha hne => (hown a ha).resolve_left hne
    cases hAL : activeLockOwner cfg.lockfileOwner with
    | none =>
        simp only [fileFindings, hsh, hAL]
        simp [hlt, hres]
        constructor
        · intro _ a ha hne
          exact hown' a ha hne
        · intro a ha hne
          exact hown' a ha hne
    | some ow =>
        by_cases hlf : isLockfileName f = true
        · have hlock' : ∀ a ∈ ags, a = ow := fun a ha => hlock a ha ow hAL hlf
          simp only [fileFindings, hsh, hAL]
          simp [hlt, hres, hlf]
          refine ⟨⟨fun _ a ha hne => hown' a ha hne, fun _ a ha => hlock' a ha⟩,
            fun a ha hne => hown' a ha hne, fun a ha => hlock' a ha⟩
        · simp only [fileFindings, hsh, hAL]
          simp [hlt, hres, (by simpa using hlf : isLockfileName f = false)]
          constructor
          · intro _ a ha hne
            exact hown' a ha hne
          · intro a ha hne
            exact hown' a ha hne

/-- C4 (amended): if the agents of a planned-change set claim pairwise
disjoint path sets, no claimed path matches a restricted pattern, every
claimed path with an owners-map entry lists its claimant as an owner, and
every claimed lockfile-named path is claimed by the lockfile owner (when
one is configured), then `checkOwnership` returns `ok = true` with no
conflicts and no violations. -/
theorem checkOwnership_disjoint_safe (plan : List PlannedChange) (cfg : OwnershipConfig)
    (hdisj : ∀ p ∈ plan, ∀ q ∈ plan, p.agent ≠ q.agent → ∀ f ∈ p.files, f ∉ q.files)
    (hres : ∀ p ∈ plan, ∀ f ∈ p.files, matchesAny f cfg.restrictedPaths = false)
    (hown : ∀ p ∈ plan, ∀ f ∈ p.files,
      getOwners f cfg = [] ∨ p.agent ∈ getOwners f cfg)
    (hlock : ∀ p ∈ plan, ∀ f ∈ p.files, isLockfileName f = true →
      activeLockOwner cfg.lockfileOwner = none ∨
        activeLockOwner cfg.lockfileOwner = some p.agent) :
    (checkOwnership plan cfg).ok = true ∧ (checkOwnership plan cfg).conflicts = [] ∧
      (checkOwnership plan cfg).violations = [] := by
  have hent : ∀ e ∈ buildTouched plan cfg, fileFindings cfg e.1 e.2 = ⟨[], [], []⟩ := by
    intro e he
    obtain ⟨g, ags⟩ := e
    obtain ⟨hne, hnd, hcl⟩ := buildTouched_good plan cfg _ he
    have hall : ∀ a ∈ ags, ∀ b ∈ ags, a = b := by
      intro a ha b hb
      obtain ⟨p, hp, hpa, hpf⟩ := claimPairs_mem.mp (hcl a ha)
      obtain ⟨q, hq, hqa, hqf⟩ := claimPairs_mem.mp (hcl b hb)
      by_contra hab
      exact hdisj p hp q hq (by rw [hpa, hqa]; exact hab) g hpf hqf
    obtain ⟨a0, ha0⟩ := List.exists_mem_of_ne_nil ags hne
    obtain ⟨p0, hp0, hp0a, hp0f⟩ := claimPairs_mem.mp (hcl a0 ha0)
    refine fileFindings_eq_nil cfg g ags (length_le_one_of_allEq hnd hall)
      (hres p0 hp0 g hp0f) ?_ ?_
    · intro a ha
      obtain ⟨p, hp, hpa, hpf⟩ := claimPairs_mem.mp (hcl a ha)
      exact hpa ▸ hown p hp g hpf
    · intro a ha ow how hlf
      obtain ⟨p, hp, hpa, hpf⟩ := claimPairs_mem.mp (hcl a ha)
      rcases hlock p hp g hpf hlf with h | h
      · rw [how] at h
        exact absurd h (by simp)
      · rw [how] at h
        exact hpa ▸ (Option.some.injEq .. ▸ h).symm
  have hnil : ∀ (sel : FileFindings → List String), sel ⟨[], [], []⟩ = [] →
      ((((buildTouched plan cfg).map fun e => fileFindings cfg e.1 e.2).map
        fun r => sel r).flatten) = ([] : List String) := by
    intro sel hsel
    rw [List.map_map]
    refine List.flatten_eq_nil_iff.mpr fun l hl => ?_
    obtain ⟨e, he, rfl⟩ := List.mem_map.mp hl
    show sel (fileFindings cfg e.1 e.2) = []
    rw [hent e he, hsel]
  refine ⟨?_, ?_, ?_⟩
  · show ((((buildTouched plan cfg).map fun e => fileFindings cfg e.1 e.2).map
      fun r => r.errors).flatten.length == 0) = true
    rw [hnil (fun r => r.errors) rfl]
    rfl
  · show ((((buildTouched plan cfg).map fun e => fileFindings cfg e.1 e.2).map
      fun r => r.conflicts).flatten) = []
    exact hnil (fun r => r.conflicts) rfl
  · show ((((buildTouched plan cfg).map fun e => fileFindings cfg e.1 e.2).map
      fun r => r.violations).flatten) = []
    exact hnil (fun r => r.violations) rfl

/-- C4 counterexample: Frontend alone claims `apps/api/x.ts` — the path
sets are trivially pairwise disjoint and the path matches no restricted
pattern and no lockfile name — yet `checkOwnership` reports an ownership
violation (the owners map gives the path to Backend) and `ok = false`,
refuting the claim as stated. -/
theorem checkOwnership_disjoint_counterexample :
    (∀ p ∈ planC4, ∀ q ∈ planC4, p.agent ≠ q.agent → ∀ f ∈ p.files, f ∉ q.files) ∧
    (∀ p ∈ planC4, ∀ f ∈ p.files,
      matchesAny f cfgC4.restrictedPaths = false ∧ isLockfileName f = false ∧
        activeLockOwner cfgC4.lockfileOwner = none) ∧
    (checkOwnership planC4 cfgC4).ok = false ∧
    (checkOwnership planC4 cfgC4).violations =
      ["apps/api/x.ts owned by Backend but touched by Frontend"] := by
  refine ⟨by decide, by decide, by decide, by decide⟩

/-- C4 witness: a two-agent disjoint plan over an owners map covering both
paths satisfies every hypothesis of the amended theorem, and the check
passes. -/
theorem checkOwnership_disjoint_safe_witness :
    (∀ p ∈ planC4w, ∀ q ∈ planC4w, p.agent ≠ q.agent → ∀ f ∈ p.files, f ∉ q.files) ∧
    (∀ p ∈ planC4w, ∀ f ∈ p.files, matchesAny f cfgC4w.restrictedPaths = false) ∧
    (∀ p ∈ planC4w, ∀ f ∈ p.files,
      getOwners f cfgC4w = [] ∨ p.agent ∈ getOwners f cfgC4w) ∧
    (∀ p ∈ planC4w, ∀ f ∈ p.files, isLockfileName f = true →
      activeLockOwner cfgC4w.lockfileOwner = none ∨
        activeLockOwner cfgC4w.lockfileOwner = some p.agent) ∧
    ((checkOwnership planC4w cfgC4w).ok = true ∧
      (checkOwnership planC4w cfgC4w).conflicts = [] ∧
      (checkOwnership planC4w cfgC4w).violations = []) :=
  ⟨by decide, by decide, by decide, by decide,
    checkOwnership_disjoint_safe planC4w cfgC4w (by decide) (by decide) (by decide)
      (by decide)⟩

/-- C5 (amended): with a (truthy) lockfile owner configured, every claimed
path whose name contains `lock`, `pnpm` or `yarn` that is claimed by an
agent other than the lockfile owner is recorded as a violation — and under
strict mode promoted to an error — provided the path matches neither the
generated patterns (such claims are skipped) nor the shared patterns
(shared paths bypass every per-file check). -/
theorem checkOwnership_lockfile_violation (plan : List PlannedChange)
    (cfg : OwnershipConfig) (p : PlannedChange) (f ow : String)
    (hp : p ∈ plan) (hf : f ∈ p.files)
    (how : activeLockOwner cfg.lockfileOwner = some ow)
    (hgen : matchesAny f cfg.generatedPaths = false)
    (hsh : matchesAny f cfg.allowSharedPaths = false)
    (hlk : isLockfileName f = true)
    (hag : p.agent ≠ ow) :
    (f ++ " is lockfile, only " ++ ow ++ " should modify")
        ∈ (checkOwnership plan cfg).violations ∧
    (cfg.strict = true →
      ("LOCKFILE: " ++ p.agent ++ " cannot modify " ++ f ++ " (owned by " ++ ow ++ ")")
        ∈ (checkOwnership plan cfg).errors) := by
  have hclaim : (p.agent, f) ∈ claimPairs plan :=
    claimPairs_mem.mpr ⟨p, hp, rfl, hf⟩
  have hval : p.agent ∈ valsA (buildTouched plan cfg) f :=
    mem_valsA_foldl_claim cfg hclaim hgen []
  have hsome : ∃ ags, lookupA (buildTouched plan cfg) f = some ags ∧ p.agent ∈ ags := by
    cases hli : lookupA (buildTouched plan cfg) f with
    | none => rw [valsA, hli] at hval; simp at hval
    | some ags => exact ⟨ags, rfl, by rwa [valsA, hli] at hval⟩
  obtain ⟨ags, hli, hmem⟩ := hsome
  have hentry : (f, ags) ∈ buildTouched plan cfg := lookupA_mem hli
  have hoffend : p.agent ∈ ags.filter fun a => a ≠ ow :=
    List.mem_filter.mpr ⟨hmem, by simpa using hag⟩
  constructor
  · show _ ∈ ((((buildTouched plan cfg).map fun e => fileFindings cfg e.1 e.2).map
      fun r => r.violations).flatten)
    rw [List.map_map]
    refine List.mem_flatten.mpr ⟨(fileFindings cfg f ags).violations,
      List.mem_map.mpr ⟨(f, ags), hentry, rfl⟩, ?_⟩
    simp only [fileFindings, hsh, how, hlk]
    simp only [Bool.false_eq_true, if_false, if_true]
    refine List.mem_append.mpr (Or.inr ?_)
    exact List.mem_map.mpr ⟨p.agent, hoffend, rfl⟩
  · intro hstrict
    show _ ∈ ((((buildTouched plan cfg).map fun e => fileFindings cfg e.1 e.2).map
      fun r => r.errors).flatten)
    rw [List.map_map]
    refine List.mem_flatten.mpr ⟨(fileFindings cfg f ags).errors,
      List.mem_map.mpr ⟨(f, ags), hentry, rfl⟩, ?_⟩
    simp only [fileFindings, hsh, how, hlk, hstrict]
    simp only [Bool.false_eq_true, if_false, if_true]
    refine List.mem_append.mpr (Or.inr ?_)
    exact List.mem_map.mpr ⟨p.agent, hoffend, rfl⟩

/-- C5 counterexample: with lockfile owner Backend, Frontend claims
`docs/yarn-notes.md` — a path whose name matches the lockfile test
(contains `yarn`) — yet because the path matches the shared pattern
`docs/`, `checkOwnership` records no violation at all and returns
`ok = true`, refuting the claim as stated. -/
theorem checkOwnership_lockfile_counterexample :
    activeLockOwner cfgC5.lockfileOwner = some "Backend" ∧
    isLockfileName "docs/yarn-notes.md" = true ∧
    (∃ p ∈ planC5, p.agent ≠ "Backend" ∧ "docs/yarn-notes.md" ∈ p.files) ∧
    cfgC5.strict = true ∧
    (checkOwnership planC5 cfgC5).violations = [] ∧
    (checkOwnership planC5 cfgC5).errors = [] ∧
    (checkOwnership planC5 cfgC5).ok = true := by
  refine ⟨by decide, by decide, ⟨⟨"Frontend", ["docs/yarn-notes.md"]⟩, by decide,
    by decide, by decide⟩, by decide, by decide, by decide, by decide⟩

/-- C5 witness: Frontend claiming `pnpm-lock.yaml` under lockfile owner
Backend satisfies the amended theorem's hypotheses, and both the violation
and the strict-mode error are recorded. -/
theorem checkOwnership_lockfile_violation_witness :
    (⟨"Frontend", ["pnpm-lock.yaml"]⟩ : PlannedChange) ∈ planC5b ∧
    "pnpm-lock.yaml" ∈ (⟨"Frontend", ["pnpm-lock.yaml"]⟩ : PlannedChange).files ∧
    activeLockOwner cfgC5b.lockfileOwner = some "Backend" ∧
    matchesAny "pnpm-lock.yaml" cfgC5b.generatedPaths = false ∧
    matchesAny "pnpm-lock.yaml" cfgC5b.allowSharedPaths = false ∧
    isLockfileName "pnpm-lock.yaml" = true ∧
    ("pnpm-lock.yaml is lockfile, only Backend should modify"
      ∈ (checkOwnership planC5b cfgC5b).violations ∧
     (cfgC5b.strict = true →
       "LOCKFILE: Frontend cannot modify pnpm-lock.yaml (owned by Backend)"
         ∈ (checkOwnership planC5b cfgC5b).errors)) :=
  ⟨by decide, by decide, by decide, by decide, by decide, by decide,
    checkOwnership_lockfile_violation planC5b cfgC5b
      ⟨"Frontend", ["pnpm-lock.yaml"]⟩ "pnpm-lock.yaml" "Backend"
      (by decide) (by decide) (by decide) (by decide) (by decide) (by decide)
      (by decide)⟩

/-! ### `detectConflicts` lemmas -/

theorem dcStep_foldl_length (ps : List (String × String)) (c : List String)
    (seen : List (String × String)) :
    (ps.foldl dcStep (c, seen)).1.length + (ps.foldl dcStep (c, seen)).2.length
      = c.length + seen.length + ps.length := by
  induction ps generalizing c seen with
  | nil => simp
  | cons p rest ih =>
      cases hli : lookupA seen p.2 with
      | some other =>
          have hstep := ih (c ++ ["CONFLICT: " ++ p.2 ++ " touched by both " ++ p.1 ++
            " and " ++ other]) seen
          simp only [List.foldl_cons, dcStep, hli]
          simp only [List.length_append, List.length_cons, List.length_nil] at hstep ⊢
          omega
      | none =>
          have hstep := ih c (seen ++ [(p.2, p.1)])
          simp only [List.foldl_cons, dcStep, hli]
          simp only [List.length_append, List.length_cons, List.length_nil] at hstep ⊢
          omega

theorem dcStep_foldl_seen (ps : List (String × String)) (c : List String)
    (seen : List (String × String)) :
    (ps.foldl dcStep (c, seen)).2.map Prod.fst
      = (ps.map Prod.snd).foldl insFD (seen.map Prod.fst) := by
  induction ps generalizing c seen with
  | nil => simp
  | cons p rest ih =>
      cases hli : lookupA seen p.2 with
      | some other =>
          have hmem : p.2 ∈ seen.map Prod.fst := by
            by_contra hno
            rw [lookupA_eq_none_iff.mpr hno] at hli
            cases hli
          simp only [List.foldl_cons, dcStep, hli, List.map_cons]
          rw [ih, insFD, if_pos hmem]
      | none =>
          have hno : p.2 ∉ seen.map Prod.fst := lookupA_eq_none_iff.mp hli
          simp only [List.foldl_cons, dcStep, hli, List.map_cons]
          rw [ih, insFD, if_neg hno]
          simp

/-- C6 (amended): `detectConflicts` ignores `noOp` manifests, and reports
one conflict entry per claim of an already-claimed path, paired with the
path's first claimant — so the number of entries is the number of claims
by non-`noOp` manifests minus the number of distinct claimed paths, not
one entry per pair of claiming manifests. -/
theorem detectConflicts_first_claimant_count (ms : List ArtifactManifest) :
    (detectConflicts ms).length
        + (firstDedup ((manifestPairs ms).map Prod.snd)).length
      = (manifestPairs ms).length ∧
    detectConflicts (ms.filter fun m => !m.noOp) = detectConflicts ms := by
  constructor
  · have hlen := dcStep_foldl_length (manifestPairs ms) [] []
    have hseen := dcStep_foldl_seen (manifestPairs ms) [] []
    simp only [List.length_nil, List.map_nil, Nat.zero_add] at hlen hseen
    have hsl : ((manifestPairs ms).foldl dcStep ([], [])).2.length
        = (firstDedup ((manifestPairs ms).map Prod.snd)).length := by
      rw [firstDedup, ← hseen, List.length_map]
    rw [detectConflicts, ← hsl]
    simpa using hlen
  · have : (ms.filter fun m => !m.noOp).filter (fun m => !m.noOp)
        = ms.filter fun m => !m.noOp := by
      rw [List.filter_filter]
      exact List.filter_congr fun m _ => by cases m.noOp <;> rfl
    rw [detectConflicts, detectConflicts, manifestPairs, manifestPairs, this]

/-- C6 counterexample: three manifests A, B, C all claiming `a.ts` give
only two conflict entries — B and C are each paired with the first
claimant A, and the B-C pair is never reported — refuting "reported for
each pair of distinct claiming manifests" (which would demand three). -/
theorem detectConflicts_pairs_counterexample :
    detectConflicts [mA, mB, mC] =
      ["CONFLICT: a.ts touched by both B and A",
       "CONFLICT: a.ts touched by both C and A"] ∧
    "CONFLICT: a.ts touched by both C and B" ∉ detectConflicts [mA, mB, mC] ∧
    (detectConflicts [mA, mB, mC]).length = 2 := by
  refine ⟨by decide, by decide, by decide⟩

/-- C3 (amended): under strict mode, `review` approves iff the accumulated
error list is empty; under non-strict mode it approves iff every
accumulated error's text begins with `CONFLICT:`.  Conflict errors always
carry that prefix, but the test is purely textual, so other error classes
are also tolerated whenever the producing agent's name makes them share
the prefix (see the counterexample). -/
theorem review_approved_characterization (ms : List ArtifactManifest) :
    ((review true ms).approved = true ↔ (review true ms).errors = []) ∧
    ((review false ms).approved = true ↔
      ∀ e ∈ (review false ms).errors, strStarts e "CONFLICT:" = true) := by
  constructor
  · show ((review true ms).errors.length == 0) = true ↔ (review true ms).errors = []
    simp [List.length_eq_zero]
  · show (((review false ms).errors.filter fun e =>
        !strStarts e "CONFLICT:").length == 0) = true ↔ _
    simp only [Nat.beq_eq_true_eq, List.length_eq_zero, List.filter_eq_nil_iff]
    constructor
    · intro h e he
      have := h e he
      simpa using this
    · intro h e he
      simp [h e he]

/-- C3 counterexample: a manifest from an agent literally named `CONFLICT`
with a missing summary produces a manifest-validation error (and no
conflicts at all), yet non-strict review approves, because the error text
`CONFLICT: Missing required field: summary` begins with the conflict
prefix — refuting "approved iff every accumulated error is a conflict
error". -/
theorem review_nonstrict_agent_named_conflict_counterexample :
    (review false [mConf]).approved = true ∧
    (review false [mConf]).conflicts = [] ∧
    (review false [mConf]).errors = ["CONFLICT: Missing required field: summary"] ∧
    (validateManifest mConf).valid = false := by
  refine ⟨by decide, by decide, by decide, by decide⟩

/-- C2: the code computes the risk level over the declared flags with the
claimed precedence for `breaking-change`, `db-migration` and
`touches-auth`, but the security branch tests for the literal `security`,
which is not among the declared risk flags — so a manifest declaring only
`security-sensitive` is assessed `medium`, where the spec requires `high`.
Evaluation at the failing input. -/
theorem review_security_sensitive_medium_eval :
    mSec.riskFlags = ["security-sensitive"] ∧
    validRiskFlags.contains "security-sensitive" = true ∧
    validRiskFlags.contains "security" = false ∧
    (review true [mSec]).riskAssessment.level = "medium" ∧
    (review true [⟨"Backend", "wt", "main", "abc", false, "s", [], [], [],
       "pass", [], ["touches-auth"], 0⟩]).riskAssessment.level = "high" := by
  refine ⟨by decide, by decide, by decide, by decide, by decide⟩

/-- C1: the merge is not all-or-nothing.  With `main` at commit 0 and two
accepted commits where Backend's applies cleanly and Frontend's collides,
`mergeCommitsAtomic` returns `success = false` but leaves Backend's
already-applied commit on the target: the head moves from 0 to 1.  And on
full success the target advances by one commit per accepted commit (here
two), not by exactly one new commit. -/
theorem mergeCommitsAtomic_not_atomic_eval :
    (headOfBranch c1st "main" = some 0 ∧
     (mergeCommitsAtomic c1applyOk c1st c1commits "main" none).1.success = false ∧
     headOfBranch (mergeCommitsAtomic c1applyOk c1st c1commits "main" none).2 "main"
       = some 1) ∧
    ((mergeCommitsAtomic c1applyAll c1st c1commits "main" none).1.success = true ∧
     lookupA (mergeCommitsAtomic c1applyAll c1st c1commits "main" none).2.branches
       "main" = some [2, 1, 0]) := by
  refine ⟨⟨by decide, by decide, by decide⟩, by decide, by decide⟩

/-- C7: on a dirty workspace `verify` fails; `enforce` then stages
everything and creates one fresh commit, after which `verify` succeeds and
reports exactly the commit `enforce` returned; on an already-clean
workspace `enforce` returns the existing head with the state unchanged.
(`baseRef` must resolve, to a commit older than the next fresh
identifier.) -/
theorem commitContract_verify_enforce (st : WsState) (baseRef : String) (b : Nat)
    (hres : lookupA st.refs baseRef = some b) (hfresh : b < st.nextId) :
    (st.statusLines ≠ [] →
      (verifyCommitContract st baseRef).valid = false ∧
      (enforceCommit st).1.success = true ∧
      (enforceCommit st).1.commitHash = some st.nextId ∧
      (verifyCommitContract (enforceCommit st).2 baseRef).valid = true ∧
      (verifyCommitContract (enforceCommit st).2 baseRef).headCommit
        = (enforceCommit st).1.commitHash) ∧
    (st.statusLines = [] → enforceCommit st = (⟨true, some st.head, none⟩, st)) := by
  constructor
  · intro hdirty
    have hemp : st.statusLines.isEmpty = false := by
      cases hsl : st.statusLines with
      | nil => exact absurd hsl hdirty
      | cons x xs => rfl
    have hbeq : (st.nextId == b) = false := by
      simp [Nat.ne_of_gt hfresh]
    refine ⟨?_, ?_, ?_, ?_, ?_⟩
    · simp [verifyCommitContract, hres, hemp]
    · simp [enforceCommit, hemp]
    · simp [enforceCommit, hemp]
    · simp [enforceCommit, hemp, verifyCommitContract, hres, hbeq]
    · simp [enforceCommit, hemp, verifyCommitContract, hres, hbeq]
  · intro hclean
    have hemp : st.statusLines.isEmpty = true := by simp [hclean]
    simp [enforceCommit, hemp]

/-- C7 witness: the concrete dirty workspace `ws7` (head 0 equal to
`main`, one modified file). -/
theorem commitContract_verify_enforce_witness :
    lookupA ws7.refs "main" = some 0 ∧ 0 < ws7.nextId ∧ ws7.statusLines ≠ [] ∧
    (verifyCommitContract ws7 "main").valid = false ∧
    (enforceCommit ws7).1.success = true ∧
    (enforceCommit ws7).1.commitHash = some 1 ∧
    (verifyCommitContract (enforceCommit ws7).2 "main").valid = true ∧
    (verifyCommitContract (enforceCommit ws7).2 "main").headCommit
      = (enforceCommit ws7).1.commitHash :=
  have h := commitContract_verify_enforce ws7 "main" 0 rfl (by decide)
  have hd := h.1 (by decide)
  ⟨rfl, by decide, by decide, hd.1, hd.2.1, hd.2.2.1, hd.2.2.2.1, hd.2.2.2.2⟩

/-- C9: a worktree left on disk by a previous run (its path exists, its
branch exists) but absent from the manager's in-memory registry is not
torn down — `cleanup` returns immediately for unregistered names — and
both `git worktree add` attempts then fail, so `spawn` throws instead of
recreating and registering the workspace.  Evaluation at the failing
input. -/
theorem wtSpawn_stale_unregistered_eval :
    env9.disk.contains ("/tmp/wts" ++ "/" ++ "feat") = true ∧
    lookupA ([] : List (String × Worktree)) "feat" = none ∧
    wtSpawn env9 [] "feat" "main" "/tmp/wts" 0
      = Except.error "worktree add failed for feat" ∧
    (wtSpawn env9 [("feat", Worktree.mk "/tmp/wts/feat" "feat" "main" 0)]
      "feat" "main" "/tmp/wts" 5).isOk = true := by
  refine ⟨by decide, rfl, rfl, rfl⟩

theorem mem_ite_nil_elim {α : Type} {a : α} {p : Prop} [Decidable p] {l : List α}
    (h : a ∈ (if p then l else [])) : p ∧ a ∈ l := by
  by_cases hp : p
  · exact ⟨hp, by simpa [hp] using h⟩
  · simp [hp] at h

theorem mem_ite_nil_elim' {α : Type} {a : α} {p : Prop} [Decidable p] {l : List α}
    (h : a ∈ (if p then [] else l)) : ¬p ∧ a ∈ l := by
  by_cases hp : p
  · simp [hp] at h
  · exact ⟨hp, by simpa [hp] using h⟩

theorem validateManifest_no_missingHead (m : ArtifactManifest)
    (hne : m.headCommit ≠ "") : msgMissingHead ∉ (validateManifest m).errors := by
  intro hmem
  simp only [validateManifest, List.mem_append] at hmem
  rcases hmem with ((((h | h) | h) | h) | h) | h
  · obtain ⟨_, hm⟩ := mem_ite_nil_elim h
    simp only [List.mem_singleton] at hm
    exact absurd hm (by decide)
  · obtain ⟨_, hm⟩ := mem_ite_nil_elim h
    simp only [List.mem_singleton] at hm
    exact absurd hm (by decide)
  · obtain ⟨_, hm⟩ := mem_ite_nil_elim h
    simp only [List.mem_singleton] at hm
    exact absurd hm (by decide)
  · obtain ⟨hc, _⟩ := mem_ite_nil_elim h
    exact hne hc
  · obtain ⟨_, hm⟩ := mem_ite_nil_elim' h
    simp only [List.mem_singleton] at hm
    exact absurd hm (by decide)
  · obtain ⟨_, hm⟩ := mem_ite_nil_elim h
    simp only [List.mem_singleton] at hm
    exact absurd hm (by decide)

/-- C8: `validateManifest` on the output of `createManifest` yields
`valid = true` with no errors, for any non-empty agent, worktree name and
summary and any supplied head commit (an empty supplied head commit falls
back to the non-empty `UNKNOWN`). -/
theorem createManifest_validates (agent w s : String) (files : List String)
    (hc : String) (now : Nat) (ha : agent ≠ "") (hw : w ≠ "") (hs : s ≠ "") :
    (validateManifest (createManifest agent w s files (c8opts hc) now)).valid = true ∧
    (validateManifest (createManifest agent w s files (c8opts hc) now)).errors = [] := by
  have hhc : jsOrStr (some hc) "UNKNOWN" ≠ "" := by
    by_cases h : hc = "" <;> simp [jsOrStr, h]
  have hstat : jsOrStr none "skipped" ∈ validStatuses := by decide
  have hflag : "db-migration" ∉ jsOrList (none : Option (List String)) [] := by decide
  constructor <;>
    simp [validateManifest, createManifest, c8opts, ha, hw, hs, hhc, hstat, hflag]

/-- C8 witness: concrete non-empty fields with a supplied head commit. -/
theorem createManifest_validates_witness :
    ("A" : String) ≠ "" ∧ ("wt-a" : String) ≠ "" ∧ ("did work" : String) ≠ "" ∧
    ((validateManifest (createManifest "A" "wt-a" "did work" ["f.ts"]
        (c8opts "abc123") 7)).valid = true ∧
      (validateManifest (createManifest "A" "wt-a" "did work" ["f.ts"]
        (c8opts "abc123") 7)).errors = []) :=
  ⟨by decide, by decide, by decide,
    createManifest_validates "A" "wt-a" "did work" ["f.ts"] "abc123" 7
      (by decide) (by decide) (by decide)⟩

/-- C10: a `createManifest` call without a supplied head commit yields the
non-empty placeholder `UNKNOWN`, and consequently `validateManifest` on
any `createManifest` output never reports the missing-headCommit error
that signals an unsatisfied commit contract. -/
theorem createManifest_headCommit_default (agent w s : String) (files : List String)
    (opts : CMOptions) (now : Nat) (h : opts.headCommit = none) :
    (createManifest agent w s files opts now).headCommit = "UNKNOWN" ∧
    ∀ (agent2 w2 s2 : String) (files2 : List String) (opts2 : CMOptions) (now2 : Nat),
      msgMissingHead
        ∉ (validateManifest (createManifest agent2 w2 s2 files2 opts2 now2)).errors := by
  constructor
  · simp [createManifest, h, jsOrStr]
  · intro agent2 w2 s2 files2 opts2 now2
    apply validateManifest_no_missingHead
    show jsOrStr opts2.headCommit "UNKNOWN" ≠ ""
    cases hx : opts2.headCommit with
    | none => simp [jsOrStr]
    | some hc => by_cases h2 : hc = "" <;> simp [jsOrStr, h2]

/-- C10 witness: the empty options bag. -/
theorem createManifest_headCommit_default_witness :
    cmNone.headCommit = none ∧
    (createManifest "A" "w" "s" [] cmNone 0).headCommit = "UNKNOWN" ∧
    msgMissingHead ∉ (validateManifest (createManifest "A" "w" "s" [] cmNone 0)).errors :=
  have h := createManifest_headCommit_default "A" "w" "s" [] cmNone 0 rfl
  ⟨rfl, h.1, h.2 "A" "w" "s" [] cmNone 0⟩
